import Mathlib

/-!
Shallow embedding of `src/networks/squeezenet/squeezenet_bagging.py`
(the COVID CT-scan bagging ensemble), covering the two algorithmic
components the specification singles out:

* the Bootstrap Sampler `bagging_loader` (source lines 238-243), which
  computes `size = int(round(percent * len(dataset)))` and draws
  `random.sample(range(0, len(dataset)), size)`; and
* the Ensemble Aggregator tail of `models_bagging` (source lines 278-283),
  which sums the members' logits tensors, divides by the number of members,
  applies `torch.round`, compares with the ground-truth labels and takes
  the mean of the resulting 0/1 floats.

Real arithmetic is modelled exactly over `ℚ` (the Python code computes in
IEEE floats; every claim is about the algebraic algorithm, and all concrete
inputs used below are exactly representable).  Python's `round` and
`torch.round` both round halves to even; both are embedded as the same
exact function on `ℚ`.  `random.sample`'s entropy is injected explicitly
as a stream `g : ℕ → ℕ` (the i-th underlying draw), so the module-global
Mersenne-Twister state of the Python code becomes explicit state passing.
Failures (`ValueError` from `random.sample`, `RuntimeError` from torch
shape mismatches) are modelled with `Except String`.
-/

namespace CovidBagging

/-- `BATCH_SIZE = 8` from the source (line 50). -/
def BATCH_SIZE : ℕ := 8

/-- Python's builtin `round` on exact rationals: round to nearest integer,
ties to even (banker's rounding), which is the documented behaviour of
`round` on Python floats. -/
def python_round (x : ℚ) : ℤ :=
  let f : ℤ := x.floor
  let r : ℚ := x - (f : ℚ)
  if r < 1/2 then f
  else if 1/2 < r then f + 1
  else if f % 2 = 0 then f else f + 1

/-- `torch.round` also rounds half-way cases to the nearest even integer
(see the torch documentation); on exact rationals it coincides with
Python's `round`. -/
def torch_round (x : ℚ) : ℤ := python_round x

/-- The selection loop of `random.sample(population, k)`: at step `i` one
uniformly-chosen remaining element of the pool is selected and removed
(sampling without replacement).  The entropy source is `g`: the draw at
step `i` is `g i % pool.length`, so every possible sequence of draws is
covered by some `g`. -/
def sample_go (g : ℕ → ℕ) : ℕ → List ℕ → ℕ → List ℕ
  | _, _, 0 => []
  | i, pool, k + 1 =>
    let j := g i % pool.length
    pool.getD j 0 :: sample_go g (i + 1) (pool.eraseIdx j) k

/-- `random.sample(range(0, n), k)`: raises
`ValueError("Sample larger than population or is negative")` unless
`0 <= k <= n`, and otherwise returns `k` distinct elements of
`range(0, n)`.  `k` is an integer because the caller computes it as
`int(round(...))`, which can be negative. -/
def random_sample (n : ℕ) (k : ℤ) (g : ℕ → ℕ) : Except String (List ℕ) :=
  if 0 ≤ k ∧ k ≤ (n : ℤ) then
    Except.ok (sample_go g 0 (List.range n) k.toNat)
  else
    Except.error "ValueError: Sample larger than population or is negative"

/-- `bagging_loader` (source lines 238-243): `size = int(round(percent *
len(dataset)))`, then `idx = random.sample(range(0, len(dataset)), size)`.
The returned value models the sampled index list handed to
`SubsetRandomSampler`; the `DataLoader` wrapping (batching with
`BATCH_SIZE`, `drop_last=True`) is modelled by `num_batches` below.
There is no validation of `percent` or of the dataset size. -/
def bagging_loader (datasetLen : ℕ) (percent : ℚ) (g : ℕ → ℕ) :
    Except String (List ℕ) :=
  random_sample datasetLen (python_round (percent * (datasetLen : ℚ))) g

/-- Number of batches the `DataLoader` over a bag of `bagSize` indices
yields: `drop_last=True` drops the final incomplete batch. -/
def num_batches (bagSize : ℕ) : ℕ := bagSize / BATCH_SIZE

/-- Elementwise addition of two 1-D torch tensors, with torch's
broadcasting rules: equal lengths add pointwise; a length-1 tensor
broadcasts against any length; otherwise torch raises a `RuntimeError`
(shape mismatch). -/
def tensor_add (xs ys : List ℚ) : Except String (List ℚ) :=
  if xs.length = ys.length then
    Except.ok (List.zipWith (fun a b => a + b) xs ys)
  else if xs.length = 1 then
    Except.ok (ys.map (fun y => xs.headI + y))
  else if ys.length = 1 then
    Except.ok (xs.map (fun x => x + ys.headI))
  else
    Except.error "RuntimeError: The size of tensor a must match the size of tensor b"

/-- Python's `sum` over the dict values `pred_dic.values()` (a list of
1-D tensors, in insertion order): a left fold by `+`.  `sum` starts from
the integer `0`, and `0 + t` broadcasts to `t` elementwise, so on a
non-empty list the fold effectively starts from the first tensor.  The
aggregator is never invoked with zero members (`MODEL_LIST` is non-empty),
so the `[]` case (Python's scalar `0`) is immaterial to every claim. -/
def sum_tensors : List (List ℚ) → Except String (List ℚ)
  | [] => Except.ok []
  | v :: vs => vs.foldlM tensor_add v

/-- `(a == b).float()` on two 1-D tensors: elementwise equality as 0/1
floats, with the same broadcasting rules as `tensor_add`. -/
def tensor_eq_float (xs ys : List ℚ) : Except String (List ℚ) :=
  if xs.length = ys.length then
    Except.ok (List.zipWith (fun a b => if a = b then (1 : ℚ) else 0) xs ys)
  else if xs.length = 1 then
    Except.ok (ys.map (fun y => if xs.headI = y then (1 : ℚ) else 0))
  else if ys.length = 1 then
    Except.ok (xs.map (fun x => if x = ys.headI then (1 : ℚ) else 0))
  else
    Except.error "RuntimeError: The size of tensor a must match the size of tensor b"

/-- `torch.mean` of a 1-D tensor; on an empty tensor torch returns `nan`,
modelled as `none`. -/
def torch_mean (xs : List ℚ) : Option ℚ :=
  if xs.length = 0 then none else some (xs.sum / (xs.length : ℚ))

/-- The aggregation tail of `models_bagging` (source lines 278-283),
generalised over its inputs exactly as the specification's Ensemble
Aggregator: `preds` lists each member's probability (sigmoid-logits)
vector over the evaluation set (the values of `pred_dic`, in member
order) and `labels` is the ground-truth vector (`labels_tensor`).

    value = pred_dic.values()
    total = sum(value)
    pred_list = torch.round((total/len(model_list_logits)))
    test_acc = torch.mean((pred_list==labels_tensor).float())

Returns the per-sample consensus labels `pred_list` and the accuracy
`test_acc`.  No validation of vector lengths or probability ranges is
performed anywhere in the source. -/
def models_bagging_agg (preds : List (List ℚ)) (labels : List ℚ) :
    Except String (List ℚ × Option ℚ) :=
  match sum_tensors preds with
  | Except.error e => Except.error e
  | Except.ok total =>
    let n : ℚ := (preds.length : ℚ)
    let pred_list : List ℚ := total.map (fun x => ((torch_round (x / n) : ℤ) : ℚ))
    match tensor_eq_float pred_list labels with
    | Except.error e => Except.error e
    | Except.ok eqf => Except.ok (pred_list, torch_mean eqf)

/-- The executable `Rat.floor` used in `python_round` agrees with
Mathlib's `Int.floor`. -/
lemma rat_floor_eq_int_floor (q : ℚ) : q.floor = Int.floor q := by
  rw [Rat.floor_def, Rat.floor_def']

example : python_round (1/2) = 0 := by
  norm_num [python_round, Rat.floor_def']
example : python_round (3/2) = 2 := by
  norm_num [python_round, Rat.floor_def']
example : python_round (2/5) = 0 := by
  norm_num [python_round, Rat.floor_def']
example : bagging_loader 10 0 (fun _ => 0) = Except.ok [] := by
  norm_num [bagging_loader, random_sample, python_round, Rat.floor_def', sample_go]
example : models_bagging_agg [[1/2]] [1] = Except.ok ([0], some 0) := by
  norm_num [models_bagging_agg, sum_tensors, tensor_add, tensor_eq_float,
    torch_mean, torch_round, python_round, Rat.floor_def', pure, Except.pure,
    Bind.bind, Except.bind]
example : models_bagging_agg [[0, 1], [1]] [0, 1] =
    Except.ok ([(0 : ℚ), 1], some 1) := by
  norm_num [models_bagging_agg, sum_tensors, tensor_add, tensor_eq_float,
    torch_mean, torch_round, python_round, Rat.floor_def', pure, Except.pure,
    Bind.bind, Except.bind]
example : models_bagging_agg [[3/2]] [2] = Except.ok ([2], some 1) := by
  norm_num [models_bagging_agg, sum_tensors, tensor_add, tensor_eq_float,
    torch_mean, torch_round, python_round, Rat.floor_def', pure, Except.pure,
    Bind.bind, Except.bind]


/-- `python_round` never goes below the floor. -/
lemma floor_le_python_round (x : ℚ) : Int.floor x ≤ python_round x := by
  simp only [python_round, rat_floor_eq_int_floor]
  split_ifs <;> omega

/-- `python_round` never exceeds the floor plus one. -/
lemma python_round_le_floor_add_one (x : ℚ) : python_round x ≤ Int.floor x + 1 := by
  simp only [python_round, rat_floor_eq_int_floor]
  split_ifs <;> omega

/-- Rounding a non-negative rational is non-negative. -/
lemma python_round_nonneg {x : ℚ} (h : 0 ≤ x) : 0 ≤ python_round x :=
  le_trans (Int.floor_nonneg.mpr h) (floor_le_python_round x)

/-- Rounding a rational bounded by a natural number stays bounded by it. -/
lemma python_round_le_natCast {x : ℚ} {n : ℕ} (h : x ≤ (n : ℚ)) :
    python_round x ≤ (n : ℤ) := by
  have hf : Int.floor x ≤ (n : ℤ) := by
    have hm := Int.floor_mono h
    rwa [Int.floor_natCast] at hm
  rcases lt_or_eq_of_le hf with hlt | heq
  · have := python_round_le_floor_add_one x
    omega
  · have hge : (n : ℚ) ≤ x := by
      have hfl := Int.floor_le x
      rw [heq] at hfl
      exact_mod_cast hfl
    have hx : x = (n : ℚ) := le_antisymm h hge
    subst hx
    simp only [python_round, rat_floor_eq_int_floor, Int.floor_natCast]
    norm_num

/-- The selection loop returns exactly `k` indices when the pool is large
enough. -/
lemma sample_go_length (g : ℕ → ℕ) :
    ∀ (k i : ℕ) (pool : List ℕ), k ≤ pool.length →
      (sample_go g i pool k).length = k := by
  intro k
  induction k with
  | zero => intro i pool _; simp [sample_go]
  | succ k ih =>
    intro i pool hk
    have hpos : 0 < pool.length := by omega
    have hj : g i % pool.length < pool.length := Nat.mod_lt _ hpos
    have hlen : (pool.eraseIdx (g i % pool.length)).length = pool.length - 1 :=
      List.length_eraseIdx_of_lt hj
    simp only [sample_go, List.length_cons]
    rw [ih (i+1) _ (by omega)]

/-- Every index the selection loop returns comes from the pool. -/
lemma sample_go_subset (g : ℕ → ℕ) :
    ∀ (k i : ℕ) (pool : List ℕ), k ≤ pool.length →
      ∀ x ∈ sample_go g i pool k, x ∈ pool := by
  intro k
  induction k with
  | zero => intro i pool _ x hx; simp [sample_go] at hx
  | succ k ih =>
    intro i pool hk x hx
    have hpos : 0 < pool.length := by omega
    have hj : g i % pool.length < pool.length := Nat.mod_lt _ hpos
    have hlen : (pool.eraseIdx (g i % pool.length)).length = pool.length - 1 :=
      List.length_eraseIdx_of_lt hj
    simp only [sample_go, List.mem_cons] at hx
    rcases hx with hx | hx
    · rw [hx, List.getD_eq_getElem _ _ hj]
      exact List.getElem_mem hj
    · exact List.mem_of_mem_eraseIdx (ih (i+1) _ (by omega) x hx)

/-- In a duplicate-free list, the element at position `j` does not survive
erasing position `j`. -/
lemma getElem_not_mem_eraseIdx {α : Type} (l : List α) (j : ℕ)
    (hj : j < l.length) (hnd : l.Nodup) : l[j] ∉ l.eraseIdx j := by
  rw [List.eraseIdx_eq_take_drop_succ]
  intro hmem
  have hdecomp : l.take j ++ l[j] :: l.drop (j+1) = l := by
    rw [List.getElem_cons_drop]
    exact List.take_append_drop j l
  rw [← hdecomp, List.nodup_append] at hnd
  obtain ⟨h1, h2, h3⟩ := hnd
  rcases List.mem_append.mp hmem with hmem | hmem
  · exact h3 hmem (List.mem_cons_self _ _)
  · exact (List.nodup_cons.mp h2).1 hmem

/-- The selection loop never returns an index twice: sampling is without
replacement within a bag. -/
lemma sample_go_nodup (g : ℕ → ℕ) :
    ∀ (k i : ℕ) (pool : List ℕ), pool.Nodup → k ≤ pool.length →
      (sample_go g i pool k).Nodup := by
  intro k
  induction k with
  | zero => intro i pool _ _; simp [sample_go]
  | succ k ih =>
    intro i pool hnd hk
    have hpos : 0 < pool.length := by omega
    have hj : g i % pool.length < pool.length := Nat.mod_lt _ hpos
    have hlen : (pool.eraseIdx (g i % pool.length)).length = pool.length - 1 :=
      List.length_eraseIdx_of_lt hj
    simp only [sample_go]
    rw [List.nodup_cons]
    refine ⟨fun hmem => ?_, ih (i+1) _ (hnd.eraseIdx _) (by omega)⟩
    have hx : pool.getD (g i % pool.length) 0 ∈
        pool.eraseIdx (g i % pool.length) :=
      sample_go_subset g k (i+1) _ (by omega) _ hmem
    rw [List.getD_eq_getElem _ _ hj] at hx
    exact getElem_not_mem_eraseIdx pool _ hj hnd hx

/-- When `0 <= k <= n`, `random.sample(range(0, n), k)` succeeds and runs
the selection loop. -/
lemma random_sample_ok {n : ℕ} {k : ℤ} (g : ℕ → ℕ) (h0 : 0 ≤ k)
    (hn : k ≤ (n : ℤ)) :
    random_sample n k g = Except.ok (sample_go g 0 (List.range n) k.toNat) := by
  simp [random_sample, h0, hn]

/-- C2: for every `dataset_size > 0` and `fraction in (0,1]`, the Bootstrap
Sampler returns exactly `round(fraction * dataset_size)` indices (Python's
`round`, as the code computes it), pairwise distinct (sampling without
replacement within a bag), and every returned index lies in
`[0, dataset_size)`. -/
theorem bagging_loader_count_distinct_in_range
    (n : ℕ) (percent : ℚ) (g : ℕ → ℕ)
    (hn : 0 < n) (hp0 : 0 < percent) (hp1 : percent ≤ 1) :
    ∃ bag : List ℕ,
      bagging_loader n percent g = Except.ok bag ∧
      (bag.length : ℤ) = python_round (percent * (n : ℚ)) ∧
      bag.Nodup ∧
      ∀ i ∈ bag, i < n := by
  have hx0 : (0 : ℚ) ≤ percent * (n : ℚ) := by positivity
  have hxn : percent * (n : ℚ) ≤ (n : ℚ) := by
    have hnn : (0 : ℚ) ≤ (n : ℚ) := by positivity
    calc percent * (n : ℚ) ≤ 1 * (n : ℚ) :=
          mul_le_mul_of_nonneg_right hp1 hnn
      _ = (n : ℚ) := one_mul _
  have h0 : 0 ≤ python_round (percent * (n : ℚ)) := python_round_nonneg hx0
  have hle : python_round (percent * (n : ℚ)) ≤ (n : ℤ) :=
    python_round_le_natCast hxn
  have hk : (python_round (percent * (n : ℚ))).toNat ≤ (List.range n).length := by
    rw [List.length_range]; omega
  refine ⟨_, by rw [bagging_loader, random_sample_ok g h0 hle], ?_, ?_, ?_⟩
  · rw [sample_go_length g _ 0 _ hk]
    omega
  · exact sample_go_nodup g _ 0 _ (List.nodup_range n) hk
  · intro i hi
    exact List.mem_range.mp (sample_go_subset g _ 0 _ hk i hi)

/-- C2 witness: dataset of 5 samples, fraction 3/5, an arbitrary entropy
stream. -/
theorem bagging_loader_count_distinct_in_range_witness :
    ∃ bag : List ℕ,
      bagging_loader 5 (3/5) (fun _ => 0) = Except.ok bag ∧
      (bag.length : ℤ) = python_round ((3/5 : ℚ) * (5 : ℕ)) ∧
      bag.Nodup ∧
      ∀ i ∈ bag, i < 5 :=
  bagging_loader_count_distinct_in_range 5 (3/5) (fun _ => 0)
    (by norm_num) (by norm_num) (by norm_num)

/-- C7 counterexample: with `fraction = 0 <= 0` and dataset size 10, the
sampler does not fail at all (no `InvalidArgument` exists anywhere in the
code): it succeeds and returns the empty bag. -/
theorem bagging_loader_fraction_zero_succeeds :
    bagging_loader 10 0 (fun _ => 0) = Except.ok [] := by
  norm_num [bagging_loader, random_sample, python_round, Rat.floor_def', sample_go]

/-- C7 amended: `bagging_loader` performs no argument validation; it fails
(only with `random.sample`'s `ValueError`, never an `InvalidArgument`)
exactly when the requested bag size `round(fraction * dataset_size)` is
negative or exceeds the dataset size.  In particular `fraction <= 0` with a
round of zero, `dataset_size = 0`, and even some `fraction > 1` succeed. -/
theorem bagging_loader_error_iff_size_out_of_range
    (n : ℕ) (percent : ℚ) (g : ℕ → ℕ) :
    (∃ e, bagging_loader n percent g = Except.error e) ↔
      ¬ (0 ≤ python_round (percent * (n : ℚ)) ∧
         python_round (percent * (n : ℚ)) ≤ (n : ℤ)) := by
  rw [bagging_loader, random_sample]
  split_ifs with h
  · constructor
    · rintro ⟨e, he⟩
      cases he
    · intro hc
      exact absurd h hc
  · exact ⟨fun _ => h, fun _ => ⟨_, rfl⟩⟩

/-- C9: the sampler is a pure function of its inputs and the injected
entropy stream: two calls with the same dataset size, the same fraction and
the same entropy (same seed) produce identical bags. -/
theorem bagging_loader_deterministic
    (n : ℕ) (percent : ℚ) (g₁ g₂ : ℕ → ℕ) (h : ∀ i, g₁ i = g₂ i) :
    bagging_loader n percent g₁ = bagging_loader n percent g₂ := by
  rw [funext h]

/-- C9 witness: same seed, same inputs, identical results. -/
theorem bagging_loader_deterministic_witness :
    bagging_loader 5 (3/5) (fun _ => 0) = bagging_loader 5 (3/5) (fun i => i - i) :=
  bagging_loader_deterministic 5 (3/5) (fun _ => 0) (fun i => i - i)
    (fun i => (Nat.sub_self i).symm)

/-- C10: when `round(fraction * dataset_size) = 0` for a positive dataset
size and a fraction in `(0,1]` (for example fraction `1/250 = 0.004` with
100 samples), `bagging_loader` succeeds with an empty bag, whose
`drop_last` loader yields zero batches. -/
theorem bagging_loader_empty_bag_ok
    (n : ℕ) (percent : ℚ) (g : ℕ → ℕ)
    (hn : 0 < n) (hp0 : 0 < percent) (hp1 : percent ≤ 1)
    (hz : python_round (percent * (n : ℚ)) = 0) :
    bagging_loader n percent g = Except.ok [] ∧
      num_batches (List.length ([] : List ℕ)) = 0 := by
  constructor
  · rw [bagging_loader, hz, random_sample_ok g le_rfl (by positivity)]
    simp [sample_go]
  · simp [num_batches]

/-- C10 witness: fraction 1/250 with 100 samples rounds to a bag size of
zero and the loader yields no batches. -/
theorem bagging_loader_empty_bag_ok_witness :
    bagging_loader 100 (1/250) (fun _ => 0) = Except.ok [] ∧
      num_batches (List.length ([] : List ℕ)) = 0 :=
  bagging_loader_empty_bag_ok 100 (1/250) (fun _ => 0)
    (by norm_num) (by norm_num) (by norm_num)
    (by norm_num [python_round, Rat.floor_def'])


/-- Adding two tensors of the same length is pointwise addition. -/
lemma tensor_add_eq_length {M : ℕ} {xs ys : List ℚ} (hx : xs.length = M)
    (hy : ys.length = M) :
    tensor_add xs ys = Except.ok (List.zipWith (fun a b => a + b) xs ys) := by
  simp [tensor_add, hx, hy]

/-- Comparing two tensors of the same length is pointwise comparison. -/
lemma tensor_eq_float_eq_length {M : ℕ} {xs ys : List ℚ} (hx : xs.length = M)
    (hy : ys.length = M) :
    tensor_eq_float xs ys =
      Except.ok (List.zipWith (fun a b => if a = b then (1 : ℚ) else 0) xs ys) := by
  simp [tensor_eq_float, hx, hy]

/-- Pointwise reading of a zipWith-sum. -/
lemma getD_zipWith_add {M : ℕ} {v u : List ℚ} (hv : v.length = M)
    (hu : u.length = M) {i : ℕ} (hi : i < M) :
    (List.zipWith (fun a b => a + b) v u).getD i 0 = v.getD i 0 + u.getD i 0 := by
  have hz : (List.zipWith (fun a b => a + b) v u).length = M := by
    rw [List.length_zipWith, hv, hu, min_self]
  rw [List.getD_eq_getElem _ _ (by omega : i < (List.zipWith (fun a b => a + b) v u).length),
    List.getElem_zipWith,
    ← List.getD_eq_getElem v 0 (by omega : i < v.length),
    ← List.getD_eq_getElem u 0 (by omega : i < u.length)]

/-- Folding `tensor_add` over equal-length tensors succeeds and computes
the pointwise sum. -/
lemma foldlM_tensor_add_ok {M : ℕ} :
    ∀ (vs : List (List ℚ)) (v : List ℚ), v.length = M →
      (∀ p ∈ vs, p.length = M) →
      ∃ w : List ℚ, List.foldlM tensor_add v vs = Except.ok w ∧
        w.length = M ∧
        ∀ i, i < M →
          w.getD i 0 = v.getD i 0 + ((vs.map (fun p => p.getD i 0)).sum) := by
  intro vs
  induction vs with
  | nil =>
    intro v hv _
    exact ⟨v, rfl, hv, fun i _ => by simp⟩
  | cons u vs ih =>
    intro v hv hall
    have hu : u.length = M := hall u (List.mem_cons_self u vs)
    have hz : (List.zipWith (fun a b => a + b) v u).length = M := by
      rw [List.length_zipWith, hv, hu, min_self]
    obtain ⟨w, hw, hwlen, hwget⟩ := ih (List.zipWith (fun a b => a + b) v u) hz
      (fun p hp => hall p (List.mem_cons_of_mem _ hp))
    refine ⟨w, ?_, hwlen, ?_⟩
    · simp only [List.foldlM, tensor_add_eq_length hv hu, Bind.bind, Except.bind]
      exact hw
    · intro i hi
      rw [hwget i hi, getD_zipWith_add hv hu hi]
      simp only [List.map_cons, List.sum_cons]
      ring

/-- `sum(pred_dic.values())` on a non-empty family of equal-length tensors
is the pointwise sum over all members. -/
lemma sum_tensors_ok {M : ℕ} (v : List ℚ) (vs : List (List ℚ))
    (hall : ∀ p ∈ v :: vs, p.length = M) :
    ∃ w : List ℚ, sum_tensors (v :: vs) = Except.ok w ∧
      w.length = M ∧
      ∀ i, i < M →
        w.getD i 0 = (((v :: vs).map (fun p => p.getD i 0)).sum) := by
  obtain ⟨w, hw, hwlen, hwget⟩ := foldlM_tensor_add_ok vs v
    (hall v (List.mem_cons_self v vs)) (fun p hp => hall p (List.mem_cons_of_mem _ hp))
  refine ⟨w, hw, hwlen, fun i hi => ?_⟩
  rw [hwget i hi]
  simp only [List.map_cons, List.sum_cons]

/-- Structure of a successful aggregation: on a non-empty member family
whose vectors all have length `M` and a ground-truth vector of length `M`,
`models_bagging_agg` succeeds; the consensus vector has length `M`, its
`i`-th entry is `torch.round` of the arithmetic mean of the members'
values at `i`, and the reported accuracy is the `torch.mean` of the
elementwise 0/1 comparison with the ground truth. -/
lemma models_bagging_agg_ok {M : ℕ} (preds : List (List ℚ)) (labels : List ℚ)
    (hne : preds ≠ []) (hp : ∀ p ∈ preds, p.length = M)
    (hl : labels.length = M) :
    ∃ consensus : List ℚ,
      models_bagging_agg preds labels =
        Except.ok (consensus,
          torch_mean (List.zipWith (fun a b => if a = b then (1 : ℚ) else 0)
            consensus labels)) ∧
      consensus.length = M ∧
      ∀ i, i < M → consensus.getD i 0 =
        ((torch_round (((preds.map (fun p => p.getD i 0)).sum) /
          ((preds.length : ℕ) : ℚ)) : ℤ) : ℚ) := by
  match preds, hne with
  | v :: vs, _ =>
    obtain ⟨total, htot, htlen, htget⟩ := sum_tensors_ok v vs hp
    refine ⟨total.map
      (fun x => ((torch_round (x / (((v :: vs).length : ℕ) : ℚ)) : ℤ) : ℚ)), ?_, ?_, ?_⟩
    · simp only [models_bagging_agg, htot]
      rw [tensor_eq_float_eq_length (M := M) (by simp [htlen]) hl]
    · simp [htlen]
    · intro i hi
      have hmap : i < (total.map
          (fun x => ((torch_round (x / (((v :: vs).length : ℕ) : ℚ)) : ℤ) : ℚ))).length := by
        simp only [List.length_map, htlen]
        omega
      rw [List.getD_eq_getElem _ _ hmap, List.getElem_map,
        ← List.getD_eq_getElem total 0 (by omega : i < total.length), htget i hi]


/-- The sum of the elementwise 0/1 comparison of two equal-length vectors
counts the positions where they agree. -/
lemma sum_indicator_eq_countP :
    ∀ (xs ys : List ℚ), xs.length = ys.length →
      (List.zipWith (fun a b => if a = b then (1 : ℚ) else 0) xs ys).sum =
        (((List.range xs.length).countP
          (fun i => decide (xs.getD i 0 = ys.getD i 0))) : ℚ) := by
  intro xs
  induction xs with
  | nil => intro ys _; simp
  | cons x xs ih =>
    intro ys h
    cases ys with
    | nil => simp at h
    | cons y ys =>
      simp only [List.zipWith_cons_cons, List.sum_cons, List.length_cons]
      rw [ih ys (by simpa using h), List.range_succ_eq_map, List.countP_cons,
        List.countP_map]
      simp only [Function.comp_def, List.getD_cons_succ, List.getD_cons_zero]
      by_cases hxy : x = y <;> simp [hxy] <;> push_cast <;> ring


/-- Successful aggregation with the accuracy spelled out as a count of
agreeing samples over `M`. -/
lemma models_bagging_agg_ok_countP {M : ℕ} (preds : List (List ℚ))
    (labels : List ℚ) (hne : preds ≠ []) (hp : ∀ p ∈ preds, p.length = M)
    (hl : labels.length = M) (hM : 0 < M) :
    ∃ consensus : List ℚ,
      models_bagging_agg preds labels =
        Except.ok (consensus,
          some ((((List.range M).countP
            (fun i => decide (consensus.getD i 0 = labels.getD i 0))) : ℚ) /
            (M : ℚ))) ∧
      consensus.length = M ∧
      ∀ i, i < M → consensus.getD i 0 =
        ((torch_round (((preds.map (fun p => p.getD i 0)).sum) /
          ((preds.length : ℕ) : ℚ)) : ℤ) : ℚ) := by
  obtain ⟨c, hagg, hclen, hcget⟩ := models_bagging_agg_ok preds labels hne hp hl
  refine ⟨c, ?_, hclen, hcget⟩
  rw [hagg]
  have hzlen : (List.zipWith (fun a b => if a = b then (1 : ℚ) else 0)
      c labels).length = M := by
    rw [List.length_zipWith, hclen, hl, min_self]
  have hzip := sum_indicator_eq_countP c labels (by rw [hclen, hl])
  simp only [torch_mean, hzlen, hzip, hclen]
  rw [if_neg (by omega)]

/-- C1: on any non-empty member family with equal-length probability
vectors and an aligned ground truth, the aggregator computes each
consensus probability as the arithmetic mean of the members' values,
each consensus label as (torch.)round of that mean, and the accuracy as
the fraction of the `M` samples whose consensus label equals the
ground-truth label. -/
theorem models_bagging_consensus_mean_round_accuracy {M : ℕ}
    (preds : List (List ℚ)) (labels : List ℚ)
    (hne : preds ≠ []) (hp : ∀ p ∈ preds, p.length = M)
    (hl : labels.length = M) (hM : 0 < M) :
    ∃ consensus : List ℚ,
      models_bagging_agg preds labels =
        Except.ok (consensus,
          some ((((List.range M).countP
            (fun i => decide (consensus.getD i 0 = labels.getD i 0))) : ℚ) /
            (M : ℚ))) ∧
      consensus.length = M ∧
      ∀ i, i < M → consensus.getD i 0 =
        ((torch_round (((preds.map (fun p => p.getD i 0)).sum) /
          ((preds.length : ℕ) : ℚ)) : ℤ) : ℚ) :=
  models_bagging_agg_ok_countP preds labels hne hp hl hM

/-- C1 witness: two members over two samples; the consensus of `[1,0]` and
`[0,0]` is `[round(1/2), round 0] = [0,0]`, agreeing with ground truth
`[1,0]` on exactly one of the two samples. -/
theorem models_bagging_consensus_mean_round_accuracy_witness :
    ∃ consensus : List ℚ,
      models_bagging_agg [[1, 0], [0, 0]] [1, 0] =
        Except.ok (consensus,
          some ((((List.range 2).countP
            (fun i => decide (consensus.getD i 0 =
              (([1, 0] : List ℚ)).getD i 0))) : ℚ) / ((2 : ℕ) : ℚ))) ∧
      consensus.length = 2 ∧
      ∀ i, i < 2 → consensus.getD i 0 =
        ((torch_round (((([[1, 0], [0, 0]] : List (List ℚ)).map
          (fun p => p.getD i 0)).sum) /
          ((([[1, 0], [0, 0]] : List (List ℚ)).length : ℕ) : ℚ)) : ℤ) : ℚ) :=
  models_bagging_consensus_mean_round_accuracy (M := 2) [[1, 0], [0, 0]] [1, 0]
    (by simp) (by simp) (by simp) (by norm_num)

/-- C6: aligned aggregation over `M` evaluation samples returns exactly
`M` consensus labels and one scalar accuracy lying in `[0,1]`; no sample
is dropped. -/
theorem models_bagging_returns_M_labels_and_unit_accuracy {M : ℕ}
    (preds : List (List ℚ)) (labels : List ℚ)
    (hne : preds ≠ []) (hp : ∀ p ∈ preds, p.length = M)
    (hl : labels.length = M) (hM : 0 < M) :
    ∃ (consensus : List ℚ) (acc : ℚ),
      models_bagging_agg preds labels = Except.ok (consensus, some acc) ∧
      consensus.length = M ∧ 0 ≤ acc ∧ acc ≤ 1 := by
  obtain ⟨c, hagg, hclen, _⟩ :=
    models_bagging_agg_ok_countP preds labels hne hp hl hM
  refine ⟨c, _, hagg, hclen, ?_, ?_⟩
  · positivity
  · rw [div_le_one (by exact_mod_cast hM)]
    have hcount : (List.range M).countP
        (fun i => decide (c.getD i 0 = labels.getD i 0)) ≤ M := by
      have := List.countP_le_length
        (p := fun i => decide (c.getD i 0 = labels.getD i 0)) (l := List.range M)
      simpa using this
    exact_mod_cast hcount

/-- C6 witness: three members over two samples, all labels recovered. -/
theorem models_bagging_returns_M_labels_and_unit_accuracy_witness :
    ∃ (consensus : List ℚ) (acc : ℚ),
      models_bagging_agg [[1, 0], [1, 0], [0, 1]] [1, 0] =
        Except.ok (consensus, some acc) ∧
      consensus.length = 2 ∧ 0 ≤ acc ∧ acc ≤ 1 :=
  models_bagging_returns_M_labels_and_unit_accuracy (M := 2)
    [[1, 0], [1, 0], [0, 1]] [1, 0] (by simp) (by simp) (by simp) (by norm_num)

/-- C5: with exactly one ensemble member the consensus labels are exactly
that member's own thresholded (rounded) predictions, as an identity. -/
theorem models_bagging_single_member_thresholded (p labels : List ℚ)
    (hl : labels.length = p.length) :
    ∃ acc : Option ℚ,
      models_bagging_agg [p] labels =
        Except.ok (p.map (fun x => ((torch_round x : ℤ) : ℚ)), acc) := by
  have hsum : sum_tensors [p] = Except.ok p := rfl
  have hfun : (fun x => ((torch_round (x / ((([p] : List (List ℚ)).length : ℕ) : ℚ)) : ℤ) : ℚ)) =
      (fun x => ((torch_round x : ℤ) : ℚ)) := by
    funext x
    norm_num
  have hmaplen : (p.map (fun x => ((torch_round x : ℤ) : ℚ))).length = p.length := by
    simp
  simp only [models_bagging_agg, hsum, hfun,
    tensor_eq_float_eq_length (M := p.length) hmaplen hl]
  exact ⟨_, rfl⟩

/-- C5 witness: the single member `[1/2, 3/4]` yields consensus labels
`[round(1/2), round(3/4)] = [0, 1]`. -/
theorem models_bagging_single_member_thresholded_witness :
    ∃ acc : Option ℚ,
      models_bagging_agg [[1/2, 3/4]] [0, 1] =
        Except.ok ((([1/2, 3/4] : List ℚ)).map
          (fun x => ((torch_round x : ℤ) : ℚ)), acc) :=
  models_bagging_single_member_thresholded [1/2, 3/4] [0, 1] (by simp)

/-- C4 counterexample: a consensus probability of exactly `0.5` is labelled
`0`, not `1`: with the single member `[1/2]` and ground truth `[1]` the
aggregator returns consensus label `0` and accuracy `0`. -/
theorem models_bagging_half_labels_zero_counterexample :
    models_bagging_agg [[1/2]] [1] = Except.ok ([0], some 0) := by
  norm_num [models_bagging_agg, sum_tensors, tensor_add, tensor_eq_float,
    torch_mean, torch_round, python_round, Rat.floor_def', pure, Except.pure,
    Bind.bind, Except.bind]

/-- C4 amended: `torch.round` rounds half to even, so a consensus
probability of exactly `0.5` is assigned consensus label `0` (never `1`). -/
theorem models_bagging_half_rounds_to_zero {M : ℕ}
    (preds : List (List ℚ)) (labels : List ℚ)
    (hne : preds ≠ []) (hp : ∀ p ∈ preds, p.length = M)
    (hl : labels.length = M) {i : ℕ} (hi : i < M)
    (hhalf : ((preds.map (fun p => p.getD i 0)).sum) /
      ((preds.length : ℕ) : ℚ) = 1/2) :
    ∃ (consensus : List ℚ) (acc : Option ℚ),
      models_bagging_agg preds labels = Except.ok (consensus, acc) ∧
      consensus.getD i 0 = 0 := by
  obtain ⟨c, hagg, _, hcget⟩ := models_bagging_agg_ok preds labels hne hp hl
  refine ⟨c, _, hagg, ?_⟩
  rw [hcget i hi, hhalf]
  norm_num [torch_round, python_round, Rat.floor_def']

/-- C4 amended witness: two members with probabilities `0` and `1` at the
only sample; their mean is exactly `1/2` and the consensus label is `0`. -/
theorem models_bagging_half_rounds_to_zero_witness :
    ∃ (consensus : List ℚ) (acc : Option ℚ),
      models_bagging_agg [[0], [1]] [1] = Except.ok (consensus, acc) ∧
      consensus.getD 0 0 = 0 :=
  models_bagging_half_rounds_to_zero (M := 1) [[0], [1]] [1]
    (by simp) (by simp) (by simp) (by norm_num) (by norm_num)

/-- C3 counterexample: misaligned member vectors (lengths 2 and 1) do not
make the aggregator fail; torch broadcasting silently produces a full
result. -/
theorem models_bagging_misaligned_broadcast_produces_result :
    models_bagging_agg [[0, 1], [1]] [0, 1] =
      Except.ok ([(0 : ℚ), 1], some 1) := by
  norm_num [models_bagging_agg, sum_tensors, tensor_add, tensor_eq_float,
    torch_mean, torch_round, python_round, Rat.floor_def', pure, Except.pure,
    Bind.bind, Except.bind]

/-- C3 amended: the aggregator performs no length validation.  Two member
vectors of different lengths, neither of length one, make the tensor sum
raise torch's generic shape `RuntimeError` (there is no
`MisalignedEnsembleInput` anywhere); when one length is one, broadcasting
silently produces a result instead. -/
theorem models_bagging_misaligned_generic_shape_error
    (xs ys labels : List ℚ) (hxy : xs.length ≠ ys.length)
    (hx1 : xs.length ≠ 1) (hy1 : ys.length ≠ 1) :
    models_bagging_agg [xs, ys] labels =
      Except.error
        "RuntimeError: The size of tensor a must match the size of tensor b" := by
  have hadd : tensor_add xs ys =
      Except.error
        "RuntimeError: The size of tensor a must match the size of tensor b" := by
    rw [tensor_add, if_neg hxy, if_neg hx1, if_neg hy1]
  simp only [models_bagging_agg, sum_tensors, List.foldlM, hadd, Bind.bind,
    Except.bind]

/-- C3 amended witness: member vectors of lengths 2 and 3 (the spec's
10/10/9 scenario in miniature) produce the generic shape error. -/
theorem models_bagging_misaligned_generic_shape_error_witness :
    models_bagging_agg [[0, 0], [0, 0, 0]] [0, 0] =
      Except.error
        "RuntimeError: The size of tensor a must match the size of tensor b" :=
  models_bagging_misaligned_generic_shape_error [0, 0] [0, 0, 0] [0, 0]
    (by norm_num) (by norm_num) (by norm_num)

/-- C8 counterexample: a member probability of `1.5`, outside `[0,1]`, is
processed without any failure: the aggregator rounds it to `2` and even
reports accuracy `1` against ground truth `[2]`. -/
theorem models_bagging_out_of_range_produces_result :
    models_bagging_agg [[3/2]] [2] = Except.ok ([2], some 1) := by
  norm_num [models_bagging_agg, sum_tensors, tensor_add, tensor_eq_float,
    torch_mean, torch_round, python_round, Rat.floor_def', pure, Except.pure,
    Bind.bind, Except.bind]

/-- C8 amended: the aggregator performs no probability-range validation:
even when some member value lies outside `[0,1]`, aligned aggregation
succeeds and produces a consensus result (there is no
`InvalidProbability`). -/
theorem models_bagging_no_range_validation {M : ℕ}
    (preds : List (List ℚ)) (labels : List ℚ)
    (hne : preds ≠ []) (hp : ∀ p ∈ preds, p.length = M)
    (hl : labels.length = M)
    (hout : ∃ p ∈ preds, ∃ x ∈ p, x < 0 ∨ 1 < x) :
    ∃ (consensus : List ℚ) (acc : Option ℚ),
      models_bagging_agg preds labels = Except.ok (consensus, acc) := by
  obtain ⟨c, hagg, _, _⟩ := models_bagging_agg_ok preds labels hne hp hl
  exact ⟨c, _, hagg⟩

/-- C8 amended witness: the out-of-range member `[3/2]` aggregates without
failure. -/
theorem models_bagging_no_range_validation_witness :
    ∃ (consensus : List ℚ) (acc : Option ℚ),
      models_bagging_agg [[3/2]] [0] = Except.ok (consensus, acc) :=
  models_bagging_no_range_validation (M := 1) [[3/2]] [0]
    (by simp) (by simp) (by simp)
    ⟨[3/2], by simp, 3/2, by simp, Or.inr (by norm_num)⟩

end CovidBagging
